import Mathlib

/-!
Verification of the QuestScope log-analysis core (a QuestDB log analyzer).

The development shallowly embeds the JavaScript source:
  * src/parsers/LogParser.js   (regex pattern registry, per-line extraction)
  * src/processors/DataProcessor.js (statistics: percentile, histogram, grouping)
  * src/handlers/FileHandler.js (multi-file ingestion, per-file metadata, error isolation)
  * src/utils/FileUtils.js     (error-message formatting)

JavaScript regexes are embedded as an explicit syntax tree (`Regex`) together
with a fueled backtracking matcher (`mrun`/`rsearch`) reproducing the JS
semantics the source relies on: unanchored leftmost search, lazy (`*?`) and
greedy (`+`, `*`, `?`) quantifiers, ordered alternation, numbered capture
groups (innermost-last capture wins on lookup).  JS numbers are embedded as
`Nat`/`Int`/`Rat` (floating point never matters at the claims under test:
all arithmetic involved is exact in ℚ).  `Date` values are embedded as the
epoch-millisecond integer that `new Date(iso).getTime()` yields for the
RFC3339-like `Z`-suffixed strings the patterns capture.  Fallible JS code
(array access past the end, the `TypeError` raised by `bins[NaN]`) is
embedded with `Option`.
-/

/-- Numeric value of a list of decimal digit characters; embeds JS `parseInt`
on the all-digit strings produced by `\d+` capture groups. -/
def digitsVal (cs : List Char) : Nat :=
  cs.foldl (fun n c => n * 10 + (c.toNat - 48)) 0

/-- Embeds JS `parseFloat` on strings drawn from the character class `[\d.]`:
the longest numeric prefix `digits ['.' digits]` is converted, the rest is
ignored.  (A capture with no leading digits and no fractional digits would be
`NaN` in JS; no claim depends on that corner, it is embedded as 0.) -/
def jsParseFloat (s : String) : Rat :=
  let cs := s.data
  let ip := cs.takeWhile Char.isDigit
  match cs.drop ip.length with
  | '.' :: r2 =>
      let fp := r2.takeWhile Char.isDigit
      (digitsVal ip : Rat) + (digitsVal fp : Rat) / ((10 : Rat) ^ fp.length)
  | _ => (digitsVal ip : Rat)

/-- Days from 1970-01-01 for a proleptic-Gregorian civil date (the standard
era/year-of-era computation used to embed `Date.UTC`). -/
def daysFromCivil (y m d : Int) : Int :=
  let y2 : Int := if m ≤ 2 then y - 1 else y
  let era : Int := Int.fdiv y2 400
  let yoe : Int := y2 - era * 400
  let mp : Int := Int.emod (m + 9) 12
  let doy : Int := Int.fdiv (153 * mp + 2) 5 + d - 1
  let doe : Int := yoe * 365 + Int.fdiv yoe 4 - Int.fdiv yoe 100 + doy
  era * 146097 + doe - 719468

/-- Embeds `new Date(s).getTime()` for the timestamp strings captured by the
patterns, which always have the shape `YYYY-MM-DDTHH:MM:SS.<digits>Z`:
fractional digits beyond milliseconds are truncated, shorter fractions are
right-padded with zeros, exactly as V8 parses them.  (Out-of-range fields
would give an Invalid Date in JS; the patterns' claims never exercise that,
and the embedding extends the civil-date arithmetic totally.) -/
def dateToMs (s : String) : Int :=
  let cs := s.data
  let num := fun (off len : Nat) => (digitsVal ((cs.drop off).take len) : Int)
  let frac := (cs.drop 20).takeWhile Char.isDigit
  let ms : Int := (digitsVal ((frac ++ ['0', '0', '0']).take 3) : Int)
  daysFromCivil (num 0 4) (num 5 2) (num 8 2) * 86400000
    + num 11 2 * 3600000 + num 14 2 * 60000 + num 17 2 * 1000 + ms

/-- Structural splitter on characters satisfying `p`, with JS
`String.prototype.split` semantics: empty pieces are kept, the empty string
yields one empty piece.  (The core-library `String.splitOn` is implemented
with well-founded recursion and does not reduce in the kernel, so the
embedding uses this equivalent structural definition.) -/
def splitOnP (p : Char → Bool) : List Char → List (List Char)
  | [] => [[]]
  | c :: rest =>
    match splitOnP p rest, p c with
    | r, true => [] :: r
    | [], false => [[c]]
    | g :: gs, false => (c :: g) :: gs

/-- Embeds JS `s.split(sep)` for a one-character separator. -/
def jsSplitOn (sep : Char) (s : String) : List String :=
  (splitOnP (fun c => c == sep) s.data).map String.mk

/-- Character-level atoms of the embedded JS regexes. -/
inductive RChar where
  | lit (c : Char)
  | litCI (c : Char)
  | digit
  | digitDot
  | space
  | dot
  | noneOf (cs : List Char)
deriving DecidableEq

/-- Test of one atom against one character, with JS semantics: `.` excludes
the newline, a negated class `[^...]` does not, `\d` is `0-9`, `\s` is
whitespace, and `/i` literals compare case-insensitively. -/
def RChar.test : RChar → Char → Bool
  | .lit c, x => x == c
  | .litCI c, x => x.toLower == c.toLower
  | .digit, x => x.isDigit
  | .digitDot, x => x.isDigit || x == '.'
  | .space, x => x.isWhitespace
  | .dot, x => x != '\n'
  | .noneOf cs, x => !(cs.contains x)

/-- Syntax tree of the embedded JS regexes: sequencing, ordered alternation,
lazy star (`*?`), greedy star (`*`), greedy option (`?`), and numbered
capture groups. -/
inductive Regex where
  | eps
  | ch (k : RChar)
  | seq (a b : Regex)
  | alt (a b : Regex)
  | starL (a : Regex)
  | starG (a : Regex)
  | optG (a : Regex)
  | group (idx : Nat) (a : Regex)
deriving DecidableEq

/-- Capture environment: group index paired with the captured characters.
Lookup returns the most recent capture of a group, as in JS. -/
abbrev Caps := List (Nat × List Char)

/-- Fueled continuation-passing backtracking matcher.  `mrun fuel r s caps k`
tries to match `r` against a prefix of `s`, extending `caps`, and calls the
continuation `k` on the remainder; alternatives are tried left first, lazy
stars shortest first, greedy stars longest first — the JS backtracking
order.  Star bodies that consume no input are not iterated (JS also stops
empty-match star iterations), which bounds the recursion depth, discharged
by fuel. -/
def mrun : Nat → Regex → List Char → Caps → (List Char → Caps → Option Caps) → Option Caps
  | 0, _, _, _, _ => none
  | fuel + 1, r, s, caps, k =>
    match r with
    | .eps => k s caps
    | .ch t =>
      match s with
      | [] => none
      | c :: rest => if t.test c then k rest caps else none
    | .seq a b => mrun fuel a s caps (fun s2 caps2 => mrun fuel b s2 caps2 k)
    | .alt a b =>
      match mrun fuel a s caps k with
      | some res => some res
      | none => mrun fuel b s caps k
    | .starL a =>
      match k s caps with
      | some res => some res
      | none =>
        mrun fuel a s caps (fun s2 caps2 =>
          if s2.length < s.length then mrun fuel (.starL a) s2 caps2 k else none)
    | .starG a =>
      match mrun fuel a s caps (fun s2 caps2 =>
          if s2.length < s.length then mrun fuel (.starG a) s2 caps2 k else none) with
      | some res => some res
      | none => k s caps
    | .optG a =>
      match mrun fuel a s caps k with
      | some res => some res
      | none => k s caps
    | .group i a =>
      mrun fuel a s caps (fun s2 caps2 => k s2 ((i, s.take (s.length - s2.length)) :: caps2))

/-- Fuel bound amply covering the recursion depth of `mrun` on the finite
patterns below (depth is at most pattern size times remaining input). -/
def fuelFor (s : List Char) : Nat := (s.length + 2) * 2000

/-- Unanchored search: try a full match at each start position, leftmost
first, as JS `String.prototype.match` does for a non-global regex. -/
def rsearchAux : Nat → Regex → List Char → Option Caps
  | 0, _, _ => none
  | n + 1, r, s =>
    match mrun (fuelFor s) r s [] (fun _ caps => some caps) with
    | some caps => some caps
    | none =>
      match s with
      | [] => none
      | _ :: rest => rsearchAux n r rest

/-- Leftmost match of a pattern in a string, returning the capture
environment, or `none` when the pattern matches nowhere. -/
def rsearch (r : Regex) (s : String) : Option Caps :=
  rsearchAux (s.length + 1) r s.data

/-- Capture group `i` as a string, when present. -/
def capAt (caps : Caps) (i : Nat) : Option String :=
  (caps.lookup i).map String.mk

/-- Literal sequence of characters. -/
def rlit (s : String) : Regex :=
  s.data.foldr (fun c acc => .seq (.ch (.lit c)) acc) .eps

/-- Case-insensitive literal sequence (for the `/i` patterns). -/
def rlitCI (s : String) : Regex :=
  s.data.foldr (fun c acc => .seq (.ch (.litCI c)) acc) .eps

/-- Sequence of regexes. -/
def rseq (l : List Regex) : Regex := l.foldr .seq .eps

/-- Greedy plus of an atom (`x+`). -/
def rplusG (k : RChar) : Regex := .seq (.ch k) (.starG (.ch k))

/-- Fixed repetition (`x{n}`). -/
def rrep (n : Nat) (r : Regex) : Regex := rseq (List.replicate n r)

/-- Exactly `n` decimal digits (`\d{n}`). -/
def rdigits (n : Nat) : Regex := rrep n (.ch .digit)

/-- Embeds `\d{4}-\d{2}-\d{2}T\d{2}:\d{2}:\d{2}\.\d+Z`, the timestamp shape
shared by all patterns of `LogParser.js`. -/
def timestampRe : Regex :=
  rseq [rdigits 4, rlit "-", rdigits 2, rlit "-", rdigits 2, rlit "T",
        rdigits 2, rlit ":", rdigits 2, rlit ":", rdigits 2, rlit ".",
        rplusG .digit, rlit "Z"]

/-- Embeds `PATTERNS.query` of `LogParser.js`:
`(TS).*?QueryProgress\s+(fin|exe).*?sql=` backtick `([^` backtick `]+)` backtick `.*?time=(\d+)]`. -/
def queryRe : Regex :=
  rseq [.group 1 timestampRe, .starL (.ch .dot), rlit "QueryProgress",
        rplusG .space, .group 2 (.alt (rlit "fin") (rlit "exe")),
        .starL (.ch .dot), rlit "sql=\x60",
        .group 3 (rplusG (.noneOf [Char.ofNat 96])), rlit "\x60",
        .starL (.ch .dot), rlit "time=", .group 4 (rplusG .digit), rlit "]"]

/-- Embeds `PATTERNS.walJob` of `LogParser.js`. -/
def walJobRe : Regex :=
  rseq [.group 1 timestampRe, .starL (.ch .dot), rlit "ApplyWal2TableJob job ",
        .alt (rlit "finished") (rlit "ejected"),
        rlit " [table=", .group 2 (rplusG (.noneOf [','])),
        rlit ", seqTxn=", rplusG .digit,
        rlit ", transactions=", .group 3 (rplusG .digit),
        rlit ", rows=", .group 4 (rplusG .digit),
        rlit ", time=", .group 5 (rplusG .digit),
        rlit "ms, rate=", .group 6 (rplusG .digit),
        rlit "rows/s, ampl=", .group 7 (rplusG .digitDot), rlit "]"]

/-- Embeds `PATTERNS.walCommit` of `LogParser.js`. -/
def walCommitRe : Regex :=
  rseq [.group 1 timestampRe, .starL (.ch .dot), rlit "WalWriter commit [wal=/",
        .group 2 (rplusG (.noneOf ['/'])), rlit "/", .starL (.ch .dot),
        rlit ", segTxn=", rplusG .digit, rlit ", seqTxn=", rplusG .digit,
        rlit ", rowLo=", .group 3 (rplusG .digit),
        rlit ", rowHi=", .group 4 (rplusG .digit), rlit ","]

/-- Embeds `PATTERNS.partitionClosing` of `LogParser.js`. -/
def partitionClosingRe : Regex :=
  rseq [.group 1 timestampRe, .starL (.ch .dot),
        rlit "TableReader closed partition [path=/",
        .group 2 (rplusG (.noneOf [',', '~', '/'])),
        .optG (.seq (rlit "~") (rplusG .digit)),
        rlit ", timestamp=", .group 3 (rplusG (.noneOf [']'])), rlit "]"]

/-- Embeds `PATTERNS.pgwireConnection` of `LogParser.js`. -/
def pgwireRe : Regex :=
  rseq [.group 1 timestampRe, .starL (.ch .dot), rlit "pg-server connected [ip=",
        .group 2 (rplusG (.noneOf [','])), rlit ", fd=", .group 3 (rplusG .digit),
        rlit ", connCount=", .group 4 (rplusG .digit), rlit "]"]

/-- Embeds `PATTERNS.o3Partition` (`/o3 split partition \[table=([^,]+)/i`). -/
def o3Re : Regex :=
  rseq [rlitCI "o3 split partition [table=", .group 1 (rplusG (.noneOf [',']))]

/-- Embeds `PATTERNS.partitionSquashing` (`/squashing partitions \[table=([^,]+)/i`). -/
def squashRe : Regex :=
  rseq [rlitCI "squashing partitions [table=", .group 1 (rplusG (.noneOf [',']))]

/-- Embeds `PATTERNS.mergePartition` of `LogParser.js`. -/
def mergeRe : Regex :=
  rseq [.group 1 timestampRe, .starL (.ch .dot),
        rlit "TableWriter merged partition [table=\x60",
        .group 2 (rplusG (.noneOf [Char.ofNat 96])), rlit "\x60, ts=",
        .starL (.ch .dot), rlit ", txn=", .group 3 (rplusG .digit),
        rlit ", rows=", .group 4 (rplusG .digit), rlit "]"]

/-- Embeds `PATTERNS.connectionLimit`
(`/max connection limit reached.*unregistered listener/i`). -/
def connLimitRe : Regex :=
  rseq [rlitCI "max connection limit reached", .starG (.ch .dot),
        rlitCI "unregistered listener"]

/-- Embeds the bare timestamp search of `parseSystemEvent`
(`line.match(/(\d{4}-...Z)/)`). -/
def tsOnlyRe : Regex := .group 1 timestampRe

/-- Guard of the table-name normalization: does the character list end in
`~` followed by at least one digit?  This is exactly the condition under
which `/~\d+$/` matches. -/
def hasShardSuffixCL (cs : List Char) : Bool :=
  let r := cs.reverse
  let ds := r.takeWhile Char.isDigit
  !ds.isEmpty && ((r.drop ds.length).head? == some '~')

/-- Character-list form of `normalizeTableName` of `LogParser.js`:
`tableName.replace(/~\d+$/, '')` removes the suffix starting at the last
`~` when everything after it is one or more digits. -/
def normCL (cs : List Char) : List Char :=
  if hasShardSuffixCL cs then
    let r := cs.reverse
    let ds := r.takeWhile Char.isDigit
    ((r.drop ds.length).drop 1).reverse
  else cs

/-- Embeds `normalizeTableName` of `LogParser.js`. -/
def normalizeTableName (tableName : String) : String :=
  String.mk (normCL tableName.data)

/-- Record produced by `parseQueryEntry` (timestamps as epoch ms). -/
structure QueryRecord where
  timestamp : Int
  executionTimeMs : Rat
  sqlPreview : String
  fullSql : String
  file : String
deriving DecidableEq

/-- Record produced by `parseWalJobEntry`. -/
structure WalJobRecord where
  timestamp : Int
  table : String
  transactions : Nat
  rows : Nat
  timeMs : Nat
  rate : Nat
  amplification : Rat
  file : String
deriving DecidableEq

/-- Record produced by `parseWalCommitEntry`. -/
structure WalCommitRecord where
  timestamp : Int
  table : String
  rowsCommitted : Int
  rowLo : Nat
  rowHi : Nat
  file : String
deriving DecidableEq

/-- Record produced by `parsePartitionClosingEntry`. -/
structure PartitionClosingRecord where
  timestamp : Int
  table : String
  partitionTimestamp : String
  file : String
deriving DecidableEq

/-- Record produced by the inline pgwire branch of `parseQuestDBLog`. -/
structure PgwireRecord where
  timestamp : Int
  ip : String
  fd : Nat
  connCount : Nat
  file : String
deriving DecidableEq

/-- Record produced by `parseSystemEvent` (the `table` field is absent for
connection-limit events, embedded with `Option`). -/
structure SystemEventRecord where
  timestamp : Int
  errorType : String
  table : Option String
  message : String
  file : String
deriving DecidableEq

/-- The six category collections built by `parseQuestDBLog`. -/
structure ParseResult where
  queries : List QueryRecord
  walJobs : List WalJobRecord
  walCommits : List WalCommitRecord
  partitionClosings : List PartitionClosingRecord
  pgwireConnections : List PgwireRecord
  systemEvents : List SystemEventRecord
deriving DecidableEq

/-- The empty result every `parseQuestDBLog` call starts from. -/
def emptyResult : ParseResult := ⟨[], [], [], [], [], []⟩

/-- Structural match of `PATTERNS.query` against a line, returning the four
captures (timestamp, fin/exe marker, sql, time). -/
def queryCaps (line : String) : Option (String × String × String × String) :=
  match rsearch queryRe line with
  | none => none
  | some caps =>
    match capAt caps 1, capAt caps 2, capAt caps 3, capAt caps 4 with
    | some a, some b, some c, some d => some (a, b, c, d)
    | _, _, _, _ => none

/-- Preview construction inlined in `parseQueryEntry` (LogParser.js line 43):
`sql.split(' ').slice(0, 5).join(' ') + (sql.split(' ').length > 5 ? '...' : '')`.
Note the JS split is on the single space character, so consecutive spaces
produce empty tokens. -/
def sqlPreviewOf (sql : String) : String :=
  String.intercalate " " ((jsSplitOn ' ' sql).take 5)
    ++ (if (jsSplitOn ' ' sql).length > 5 then "..." else "")

/-- Embeds `parseQueryEntry` of `LogParser.js`: requires a structural match
of `PATTERNS.query` whose second capture is `fin`; converts the nanosecond
time capture to milliseconds by dividing by 1,000,000. -/
def parseQueryEntry (line fileName : String) : Option QueryRecord :=
  match queryCaps line with
  | none => none
  | some (timestampStr, marker, sql, timeNanos) =>
    if marker ≠ "fin" then none
    else some
      { timestamp := dateToMs timestampStr
        executionTimeMs := (digitsVal timeNanos.data : Rat) / 1000000
        sqlPreview := sqlPreviewOf sql
        fullSql := sql
        file := fileName }

/-- Embeds `parseWalJobEntry` of `LogParser.js`. -/
def parseWalJobEntry (line fileName : String) : Option WalJobRecord :=
  match rsearch walJobRe line with
  | none => none
  | some caps =>
    match capAt caps 1, capAt caps 2, capAt caps 3, capAt caps 4,
          capAt caps 5, capAt caps 6, capAt caps 7 with
    | some ts, some table, some transactions, some rows, some timeMs,
      some rate, some ampl =>
      some
        { timestamp := dateToMs ts
          table := normalizeTableName table
          transactions := digitsVal transactions.data
          rows := digitsVal rows.data
          timeMs := digitsVal timeMs.data
          rate := digitsVal rate.data
          amplification := jsParseFloat ampl
          file := fileName }
    | _, _, _, _, _, _, _ => none

/-- Embeds `parseWalCommitEntry` of `LogParser.js`
(`rowsCommitted = parseInt(rowHi) - parseInt(rowLo)`, may be negative). -/
def parseWalCommitEntry (line fileName : String) : Option WalCommitRecord :=
  match rsearch walCommitRe line with
  | none => none
  | some caps =>
    match capAt caps 1, capAt caps 2, capAt caps 3, capAt caps 4 with
    | some ts, some table, some rowLo, some rowHi =>
      some
        { timestamp := dateToMs ts
          table := normalizeTableName table
          rowsCommitted := (digitsVal rowHi.data : Int) - (digitsVal rowLo.data : Int)
          rowLo := digitsVal rowLo.data
          rowHi := digitsVal rowHi.data
          file := fileName }
    | _, _, _, _ => none

/-- Embeds `parsePartitionClosingEntry` of `LogParser.js`. -/
def parsePartitionClosingEntry (line fileName : String) : Option PartitionClosingRecord :=
  match rsearch partitionClosingRe line with
  | none => none
  | some caps =>
    match capAt caps 1, capAt caps 2, capAt caps 3 with
    | some ts, some table, some pts =>
      some
        { timestamp := dateToMs ts
          table := normalizeTableName table
          partitionTimestamp := pts
          file := fileName }
    | _, _, _ => none

/-- Embeds the inline pgwire-connection branch of `parseQuestDBLog`
(its `try` block cannot throw: `parseInt` and `new Date` are total). -/
def parsePgwireEntry (line fileName : String) : Option PgwireRecord :=
  match rsearch pgwireRe line with
  | none => none
  | some caps =>
    match capAt caps 1, capAt caps 2, capAt caps 3, capAt caps 4 with
    | some ts, some ip, some fd, some connCount =>
      some
        { timestamp := dateToMs ts
          ip := ip
          fd := digitsVal fd.data
          connCount := digitsVal connCount.data
          file := fileName }
    | _, _, _, _ => none

/-- Embeds `parseSystemEvent` of `LogParser.js`: requires some timestamp in
the line, then tests the four sub-patterns in priority order
connection-limit, o3 split, squashing, merge. -/
def parseSystemEvent (line fileName : String) : Option SystemEventRecord :=
  match rsearch tsOnlyRe line with
  | none => none
  | some tsCaps =>
    match capAt tsCaps 1 with
    | none => none
    | some ts =>
      let timestamp := dateToMs ts
      if (rsearch connLimitRe line).isSome then
        some
          { timestamp := timestamp
            errorType := "Connection Limit"
            table := none
            message := line.take 200
            file := fileName }
      else
        match (rsearch o3Re line).bind (fun c => capAt c 1) with
        | some table =>
          some
            { timestamp := timestamp
              errorType := "O3 Partition Split"
              table := some (normalizeTableName table)
              message := "O3 partition split for table: " ++ table
              file := fileName }
        | none =>
          match (rsearch squashRe line).bind (fun c => capAt c 1) with
          | some table =>
            some
              { timestamp := timestamp
                errorType := "Partition Squashing"
                table := some (normalizeTableName table)
                message := "Squashing partitions for table: " ++ table
                file := fileName }
          | none =>
            match rsearch mergeRe line with
            | some mcaps =>
              match capAt mcaps 2, capAt mcaps 4 with
              | some table, some rows =>
                some
                  { timestamp := timestamp
                    errorType := "Merge Partition"
                    table := some (normalizeTableName table)
                    message := "Merged partition for table: " ++ table
                        ++ ", rows: " ++ rows
                    file := fileName }
              | _, _ => none
            | none => none

/-- Loop body of `parseQuestDBLog`: each extractor is tried in the fixed
order query, walJob, walCommit, partitionClosing, pgwireConnection,
systemEvent; a produced record is pushed and the rest are skipped
(`continue`). -/
def processLine (fileName : String) (res : ParseResult) (line : String) : ParseResult :=
  match parseQueryEntry line fileName with
  | some q => { res with queries := res.queries ++ [q] }
  | none =>
    match parseWalJobEntry line fileName with
    | some w => { res with walJobs := res.walJobs ++ [w] }
    | none =>
      match parseWalCommitEntry line fileName with
      | some w => { res with walCommits := res.walCommits ++ [w] }
      | none =>
        match parsePartitionClosingEntry line fileName with
        | some p => { res with partitionClosings := res.partitionClosings ++ [p] }
        | none =>
          match parsePgwireEntry line fileName with
          | some p => { res with pgwireConnections := res.pgwireConnections ++ [p] }
          | none =>
            match parseSystemEvent line fileName with
            | some e => { res with systemEvents := res.systemEvents ++ [e] }
            | none => res

/-- Indexed loop of `parseQuestDBLog`; the progress-callback invocations
(`if (progressCallback && i % 1000 === 0) progressCallback(i, totalLines)`)
are reified as the returned list of argument pairs. -/
def parseLoop (fileName : String) (total : Nat) :
    Nat → List String → ParseResult → List (Nat × Nat) → ParseResult × List (Nat × Nat)
  | _, [], res, calls => (res, calls)
  | i, line :: rest, res, calls =>
    let calls2 := if i % 1000 = 0 then calls ++ [(i, total)] else calls
    parseLoop fileName total (i + 1) rest (processLine fileName res line) calls2

/-- Embeds `parseQuestDBLog` of `LogParser.js`: splits on newline, scans the
lines in order, and returns the six category collections together with the
reified progress-callback invocations. -/
def parseQuestDBLog (logContent fileName : String) : ParseResult × List (Nat × Nat) :=
  let lines := jsSplitOn '\n' logContent
  parseLoop fileName lines.length 0 lines emptyResult []

/-- Tagged union of the six record kinds, used to state the dispatch claim. -/
inductive AnyRecord where
  | query (q : QueryRecord)
  | walJob (w : WalJobRecord)
  | walCommit (w : WalCommitRecord)
  | partitionClosing (p : PartitionClosingRecord)
  | pgwire (p : PgwireRecord)
  | systemEvent (e : SystemEventRecord)
deriving DecidableEq

/-- First extractor, in priority order, that yields a record for a line. -/
def firstRecordOf (fileName line : String) : Option AnyRecord :=
  match parseQueryEntry line fileName with
  | some q => some (.query q)
  | none =>
    match parseWalJobEntry line fileName with
    | some w => some (.walJob w)
    | none =>
      match parseWalCommitEntry line fileName with
      | some w => some (.walCommit w)
      | none =>
        match parsePartitionClosingEntry line fileName with
        | some p => some (.partitionClosing p)
        | none =>
          match parsePgwireEntry line fileName with
          | some p => some (.pgwire p)
          | none =>
            match parseSystemEvent line fileName with
            | some e => some (.systemEvent e)
            | none => none

/-- Appends one tagged record to its collection (or nothing). -/
def appendRecord (res : ParseResult) : Option AnyRecord → ParseResult
  | none => res
  | some (.query q) => { res with queries := res.queries ++ [q] }
  | some (.walJob w) => { res with walJobs := res.walJobs ++ [w] }
  | some (.walCommit w) => { res with walCommits := res.walCommits ++ [w] }
  | some (.partitionClosing p) => { res with partitionClosings := res.partitionClosings ++ [p] }
  | some (.pgwire p) => { res with pgwireConnections := res.pgwireConnections ++ [p] }
  | some (.systemEvent e) => { res with systemEvents := res.systemEvents ++ [e] }

/-- Total number of records held across the six collections. -/
def totalRecords (res : ParseResult) : Nat :=
  res.queries.length + res.walJobs.length + res.walCommits.length
    + res.partitionClosings.length + res.pgwireConnections.length
    + res.systemEvents.length

/-- Embeds `calculatePercentile` of `DataProcessor.js`.  The JS function
returns `sortedArray[Math.max(0, Math.ceil((percentile / 100) * length) - 1)]`,
which is `undefined` (embedded `none`) when the index runs past the end; the
empty input returns the number 0. -/
def calculatePercentile (sortedArray : List Rat) (percentile : Rat) : Option Rat :=
  if sortedArray.length = 0 then some 0
  else sortedArray.get?
    (Int.toNat (max 0 (⌈percentile / 100 * (sortedArray.length : Rat)⌉ - 1)))

/-- Item shape consumed by `groupByInterval` (a timestamped record carrying
the `executionTimeMs` numeric field the aggregation reads). -/
structure QueryItem where
  timestamp : Int
  executionTimeMs : Rat
deriving DecidableEq

/-- Output bucket of `groupByInterval`. -/
structure TimeBucket where
  timestamp : Int
  items : List QueryItem
  avgTime : Rat
  maxTime : Rat
  count : Nat
deriving DecidableEq

/-- Bucket key of `groupByInterval`:
`Math.floor(time.getTime() / intervalMs) * intervalMs`. -/
def intervalKey (intervalMs : Int) (it : QueryItem) : Int :=
  Int.fdiv it.timestamp intervalMs * intervalMs

/-- Bucket built for one key by `groupByInterval`: the members in input
order, their mean and maximum `executionTimeMs`, and their count. -/
def mkBucket (data : List QueryItem) (intervalMs : Int) (k : Int) : TimeBucket :=
  let items := data.filter (fun it => intervalKey intervalMs it = k)
  let times := items.map (fun it => it.executionTimeMs)
  { timestamp := k
    items := items
    avgTime := times.sum / (items.length : Rat)
    maxTime := times.foldl max (times.headD 0)
    count := items.length }

/-- Embeds `groupByInterval` of `DataProcessor.js`: records are grouped
under `floor(timestamp / intervalMs) * intervalMs` (members kept in input
order, as JS object push order), and the buckets are sorted ascending by
bucket start, as the final `.sort((a, b) => a.timestamp - b.timestamp)`. -/
def groupByInterval (data : List QueryItem) (intervalMs : Int) : List TimeBucket :=
  let keys := (data.map (intervalKey intervalMs)).dedup
  List.insertionSort (fun a b => a.timestamp ≤ b.timestamp)
    (keys.map (mkBucket data intervalMs))

/-- Output of `calculateTimeMetrics` for nonempty input (the empty case
returns null fields in JS, embedded as `none` at the call site). -/
structure TimeMetrics where
  startTime : Int
  endTime : Int
  duration : Rat
  rate : Rat
deriving DecidableEq

/-- Embeds `calculateTimeMetrics` of `DataProcessor.js` applied to a list of
epoch-millisecond timestamps (`FileHandler` calls it on
`allTimestamps.map(t => ({timestamp: t}))`, and `new Date(d).getTime()` of a
date is its own millisecond value): min/max timestamp, duration in seconds,
and `rate = count / Math.max(1, duration)`. -/
def calculateTimeMetrics : List Int → Option TimeMetrics
  | [] => none
  | t :: ts =>
    let startTime := ts.foldl min t
    let endTime := ts.foldl max t
    let duration : Rat := ((endTime - startTime : Int) : Rat) / 1000
    some
      { startTime := startTime
        endTime := endTime
        duration := duration
        rate := (((t :: ts).length : Nat) : Rat) / (max 1 duration) }

/-- Histogram bin of `createHistogramBins`; `stop` stands for the JS field
`end` (a Lean keyword), and the purely cosmetic `label` string is omitted. -/
structure HistBin where
  start : Rat
  stop : Rat
  count : Nat
  values : List Rat
deriving DecidableEq

/-- In-place update of one list element, as `bins[binIndex]` mutation. -/
def modifyIdx {α : Type} (f : α → α) : Nat → List α → List α
  | _, [] => []
  | 0, x :: xs => f x :: xs
  | n + 1, x :: xs => x :: modifyIdx f n xs

/-- Bin index of one value:
`Math.min(Math.floor((value - min) / binWidth), binCount - 1)`. -/
def binIndexOf (mn binWidth : Rat) (binCount : Nat) (v : Rat) : Nat :=
  min (Int.toNat ⌊(v - mn) / binWidth⌋) (binCount - 1)

/-- Population step of the histogram fold:
`bins[binIndex].count++; bins[binIndex].values.push(value)`. -/
def histStep (mn binWidth : Rat) (binCount : Nat) (bins : List HistBin) (v : Rat) : List HistBin :=
  modifyIdx (fun b => { b with count := b.count + 1, values := b.values ++ [v] })
    (binIndexOf mn binWidth binCount v) bins

/-- Embeds `createHistogramBins` of `DataProcessor.js`.  When the computed
`binWidth` is zero (all values equal, or `binCount = 0`), the JS bin index
is `NaN` (or `-1`) and `bins[binIndex].count++` throws a `TypeError`;
that failure is embedded as `none`.  Otherwise each value increments and
joins the bin of its clamped index. -/
def createHistogramBins (data : List Rat) (binCount : Nat) : Option (List HistBin) :=
  match data with
  | [] => some []
  | d0 :: rest =>
    let mn := rest.foldl min d0
    let mx := rest.foldl max d0
    let binWidth : Rat := (mx - mn) / (binCount : Rat)
    let bins0 := (List.range binCount).map (fun (i : Nat) =>
      { start := mn + (i : Rat) * binWidth
        stop := mn + (i : Rat) * binWidth + binWidth
        count := 0
        values := [] : HistBin })
    if binWidth = 0 then none
    else some ((d0 :: rest).foldl (histStep mn binWidth binCount) bins0)

/-- Embeds `createErrorMessage` of `FileUtils.js`, which is also the exact
template string `FileHandler.processFiles` shows on a per-file failure. -/
def createErrorMessage (fileName message : String) : String :=
  "Failed to process " ++ fileName ++ ": " ++ message

/-- Per-file metadata entry pushed by `DataStore.addFileMetadata`. -/
structure FileMetadata where
  fileName : String
  startTime : Int
  endTime : Int
  recordCount : Nat
deriving DecidableEq

/-- Timestamp union `FileHandler.processFiles` builds for one file's
metadata: only the queries, walJobs and systemEvents collections are read
(the JS `.filter(t => t)` keeps every element, Date objects being truthy). -/
def fileTimestamps (r : ParseResult) : List Int :=
  r.queries.map (fun q => q.timestamp)
    ++ r.walJobs.map (fun w => w.timestamp)
    ++ r.systemEvents.map (fun e => e.timestamp)

/-- Metadata entry emitted for one file, when its timestamp union is
nonempty (`if (allTimestamps.length > 0)` in `FileHandler.processFiles`). -/
def fileMetaOf (name : String) (r : ParseResult) : Option FileMetadata :=
  match calculateTimeMetrics (fileTimestamps r) with
  | none => none
  | some m =>
    some
      { fileName := name
        startTime := m.startTime
        endTime := m.endTime
        recordCount := (fileTimestamps r).length }

/-- Field-wise concatenation of parse results, as the
`allResults.<cat>.push(...result.<cat>)` block of `processFiles`. -/
def mergeResults (a b : ParseResult) : ParseResult :=
  { queries := a.queries ++ b.queries
    walJobs := a.walJobs ++ b.walJobs
    walCommits := a.walCommits ++ b.walCommits
    partitionClosings := a.partitionClosings ++ b.partitionClosings
    pgwireConnections := a.pgwireConnections ++ b.pgwireConnections
    systemEvents := a.systemEvents ++ b.systemEvents }

/-- Batch state threaded through `FileHandler.processFiles`: the merged
collections, the emitted per-file metadata, and the per-file error messages
surfaced through `showError`. -/
structure BatchState where
  results : ParseResult
  metadata : List FileMetadata
  errors : List String
deriving DecidableEq

/-- One iteration of the `for (const file of files)` loop of
`FileHandler.processFiles`.  A file is a name together with either its text
or the failure its decoding raised (`readFile` rejecting); the `try` block
covers read, parse, metadata and merge, so a failing file contributes
nothing but its error message. -/
def processOneFile (st : BatchState) (f : String × Except String String) : BatchState :=
  match f.2 with
  | .error e => { st with errors := st.errors ++ [createErrorMessage f.1 e] }
  | .ok content =>
    let r := (parseQuestDBLog content f.1).1
    { results := mergeResults st.results r
      metadata := st.metadata ++ (fileMetaOf f.1 r).toList
      errors := st.errors }

/-- Embeds `FileHandler.processFiles`: sequential fold over the given files
starting from the reset (empty) store. -/
def processFiles (files : List (String × Except String String)) : BatchState :=
  files.foldl processOneFile ⟨emptyResult, [], []⟩

/-- Preview formula stated by the specification, for comparison with the
code's `sqlPreviewOf`: the first 5 whitespace-delimited tokens of the
statement joined by single spaces, with an ellipsis when more than 5 tokens
exist.  (Unlike the code's split on the single space character, consecutive
whitespace yields no empty tokens here.) -/
def specSqlPreview (sql : String) : String :=
  let toks := ((splitOnP Char.isWhitespace sql.data).map String.mk).filter (fun t => t ≠ "")
  String.intercalate " " (toks.take 5) ++ (if toks.length > 5 then "..." else "")

/-- Sample QueryProgress line fixed by the specification (section 8). -/
def sampleLine : String :=
  "2025-09-03T13:24:11.877189Z I i.q.g.e.QueryProgress fin [id=12345, sql=\x60SELECT * FROM trades WHERE symbol = \x27BTC\x27\x60, time=285890000]"

/-- A pgwire-connection line: it yields a timestamped record in the
pgwireConnections category and in no other. -/
def pgLine : String :=
  "2025-01-01T00:00:00.0Z pg-server connected [ip=1.2.3.4, fd=5, connCount=2]"

/-- A line structurally matching the query pattern with marker `exe`. -/
def lineExe : String :=
  "2025-01-01T00:00:00.0Z QueryProgress exe [sql=\x60SELECT 1\x60, time=5]"

/-- A line structurally matching the query pattern with marker `exe` that
also contains an o3-split phrase, so a later pattern can win. -/
def lineExeO3 : String :=
  "2025-01-01T00:00:00.0Z QueryProgress exe [sql=\x60SELECT 1\x60, time=5] o3 split partition [table=t1"

/-- A finished query line whose SQL contains a doubled space, separating the
code's split-on-single-space preview from the spec's whitespace-token one. -/
def previewLine : String :=
  "2025-01-01T00:00:00.0Z QueryProgress fin [sql=\x60a  b c d e f\x60, time=2000000]"

/-- Records one file contributes to the merged batch output: none when its
decoding failed, its parse result otherwise. -/
def fileContribution (f : String × Except String String) : ParseResult :=
  match f.2 with
  | .error _ => emptyResult
  | .ok content => (parseQuestDBLog content f.1).1

/-- Error messages one file contributes to the batch. -/
def errContribution (f : String × Except String String) : List String :=
  match f.2 with
  | .error e => [createErrorMessage f.1 e]
  | .ok _ => []

instance : IsTotal TimeBucket (fun a b => a.timestamp ≤ b.timestamp) :=
  ⟨fun a b => le_total a.timestamp b.timestamp⟩

instance : IsTrans TimeBucket (fun a b => a.timestamp ≤ b.timestamp) :=
  ⟨fun _ _ _ hab hbc => le_trans hab hbc⟩

/-! General helper lemmas about folds, takeWhile and indexed updates. -/

theorem foldl_min_le_init {α : Type} [LinearOrder α] : ∀ (l : List α) (a : α), l.foldl min a ≤ a
  | [], _ => le_refl _
  | c :: l, a => le_trans (foldl_min_le_init l (min a c)) (min_le_left a c)

theorem foldl_min_le_mem {α : Type} [LinearOrder α] :
    ∀ (l : List α) (a x : α), x ∈ l → l.foldl min a ≤ x
  | c :: l, a, x, h => by
    rcases List.mem_cons.mp h with h1 | h2
    · subst h1
      exact le_trans (foldl_min_le_init l (min a x)) (min_le_right a x)
    · exact foldl_min_le_mem l (min a c) x h2

theorem foldl_min_mem {α : Type} [LinearOrder α] : ∀ (l : List α) (a : α), l.foldl min a ∈ a :: l
  | [], a => List.mem_singleton.mpr rfl
  | c :: l, a => by
    have h := foldl_min_mem l (min a c)
    rcases List.mem_cons.mp h with h1 | h2
    · rw [List.foldl_cons, h1]
      rcases min_choice a c with h3 | h3 <;> rw [h3]
      · exact List.mem_cons_self _ _
      · exact List.mem_cons_of_mem _ (List.mem_cons_self _ _)
    · exact List.mem_cons_of_mem _ (List.mem_cons_of_mem _ h2)

theorem foldl_max_ge_init {α : Type} [LinearOrder α] : ∀ (l : List α) (a : α), a ≤ l.foldl max a
  | [], _ => le_refl _
  | c :: l, a => le_trans (le_max_left a c) (foldl_max_ge_init l (max a c))

theorem foldl_max_ge_mem {α : Type} [LinearOrder α] :
    ∀ (l : List α) (a x : α), x ∈ l → x ≤ l.foldl max a
  | c :: l, a, x, h => by
    rcases List.mem_cons.mp h with h1 | h2
    · subst h1
      exact le_trans (le_max_right a x) (foldl_max_ge_init l (max a x))
    · exact foldl_max_ge_mem l (max a c) x h2

theorem foldl_max_mem {α : Type} [LinearOrder α] : ∀ (l : List α) (a : α), l.foldl max a ∈ a :: l
  | [], a => List.mem_singleton.mpr rfl
  | c :: l, a => by
    have h := foldl_max_mem l (max a c)
    rcases List.mem_cons.mp h with h1 | h2
    · rw [List.foldl_cons, h1]
      rcases max_choice a c with h3 | h3 <;> rw [h3]
      · exact List.mem_cons_self _ _
      · exact List.mem_cons_of_mem _ (List.mem_cons_self _ _)
    · exact List.mem_cons_of_mem _ (List.mem_cons_of_mem _ h2)

theorem takeWhile_append_all {α : Type} (p : α → Bool) :
    ∀ (l1 l2 : List α), (∀ c ∈ l1, p c = true) → (l1 ++ l2).takeWhile p = l1 ++ l2.takeWhile p
  | [], _, _ => rfl
  | c :: l1, l2, h => by
    have hc : p c = true := h c (List.mem_cons_self c l1)
    have ih := takeWhile_append_all p l1 l2 (fun x hx => h x (List.mem_cons_of_mem c hx))
    simp [List.takeWhile_cons, hc, ih]

theorem modifyIdx_length {α : Type} (f : α → α) :
    ∀ (n : Nat) (l : List α), (modifyIdx f n l).length = l.length
  | n, [] => by cases n <;> rfl
  | 0, _ :: _ => rfl
  | n + 1, x :: xs => by simp [modifyIdx, modifyIdx_length f n xs]

theorem modifyIdx_getElem? {α : Type} (f : α → α) :
    ∀ (n : Nat) (l : List α) (j : Nat),
      (modifyIdx f n l)[j]? = if j = n then (l[j]?).map f else l[j]?
  | n, [], j => by cases n <;> cases j <;> simp [modifyIdx]
  | 0, x :: xs, 0 => by simp [modifyIdx]
  | 0, x :: xs, j + 1 => by simp [modifyIdx]
  | n + 1, x :: xs, 0 => by simp [modifyIdx]
  | n + 1, x :: xs, j + 1 => by
    have ih := modifyIdx_getElem? f n xs j
    simp [modifyIdx, ih]

/-! Lemmas about table-name normalization. -/

theorem normCL_id_of_no_suffix (cs : List Char) (h : hasShardSuffixCL cs = false) :
    normCL cs = cs := by
  simp [normCL, h]

theorem normCL_strip (a d : List Char) (hd : d ≠ []) (hdig : ∀ c ∈ d, c.isDigit = true) :
    normCL (a ++ '~' :: d) = a := by
  have h7 : Char.isDigit '~' = false := by decide
  have hrev : (a ++ '~' :: d).reverse = d.reverse ++ '~' :: a.reverse := by
    simp
  have htw : ((a ++ '~' :: d).reverse).takeWhile Char.isDigit = d.reverse := by
    rw [hrev,
      takeWhile_append_all Char.isDigit d.reverse ('~' :: a.reverse)
        (fun c hc => hdig c (List.mem_reverse.mp hc))]
    simp [List.takeWhile_cons, h7]
  have hdr : d.reverse ≠ [] := fun hc => hd (List.reverse_eq_nil_iff.mp hc)
  have hdrop : ((a ++ '~' :: d).reverse).drop d.reverse.length = '~' :: a.reverse := by
    rw [hrev]
    exact List.drop_left _ _
  have hguard : hasShardSuffixCL (a ++ '~' :: d) = true := by
    simp only [hasShardSuffixCL, htw, hdrop]
    cases hr : d.reverse with
    | nil => exact absurd hr hdr
    | cons x xs => simp
  simp only [normCL, hguard, if_true, htw, hdrop]
  simp

/-- Claim C2 (corrected): `normalizeTableName` strips exactly one trailing
shard suffix of the shape tilde-digits (first conjunct), is the identity on
names without such a suffix — hence idempotent whenever its result carries
no further suffix (second conjunct) — and maps `foo~20` to `foo` and `foo`
to itself.  Unqualified idempotence fails, see the counterexample. -/
theorem c2_normalize_shard_suffix :
    (∀ (a d : List Char), d ≠ [] → (∀ c ∈ d, c.isDigit = true) →
        normalizeTableName (String.mk (a ++ '~' :: d)) = String.mk a)
    ∧ (∀ t : String, hasShardSuffixCL (normalizeTableName t).data = false →
        normalizeTableName (normalizeTableName t) = normalizeTableName t)
    ∧ normalizeTableName "foo~20" = "foo"
    ∧ normalizeTableName "foo" = "foo" := by
  refine ⟨?_, ?_, by decide, by decide⟩
  · intro a d hd hdig
    unfold normalizeTableName
    exact congrArg String.mk (normCL_strip a d hd hdig)
  · intro t h
    unfold normalizeTableName
    exact congrArg String.mk (normCL_id_of_no_suffix _ h)

/-- Claim C2 counterexample: normalization is not idempotent on a name with
two stacked shard suffixes — a second application strips a second suffix. -/
theorem c2_counterexample :
    normalizeTableName (normalizeTableName "a~1~2") ≠ normalizeTableName "a~1~2" := by
  decide

/-- Claim C2 witness: the theorem applied at concrete inputs. -/
theorem c2_witness :
    normalizeTableName (String.mk ("foo".data ++ '~' :: ['2', '0'])) = String.mk "foo".data
    ∧ normalizeTableName (normalizeTableName "bar") = normalizeTableName "bar" :=
  ⟨c2_normalize_shard_suffix.1 "foo".data ['2', '0'] (by decide) (by decide),
   c2_normalize_shard_suffix.2.1 "bar" (by decide)⟩

/-- Claim C4 (corrected): the percentile function returns 0 for the empty
input for every `p`; for `0 ≤ p ≤ 100` it returns the single value on a
singleton and, on any nonempty ascending-sorted sample, the nearest-rank
element at index `ceil(p/100*n) - 1` clamped to `[0, n-1]` (the upper clamp
being redundant in that range), with `p = 100` selecting the last element.
For `p > 100` the unclamped JS access runs past the array (see the
counterexample), so the singleton clause needs `p ≤ 100`. -/
theorem c4_percentile_nearest_rank :
    (∀ p : Rat, calculatePercentile [] p = some 0)
    ∧ (∀ (S : List Rat) (p : Rat), S ≠ [] → 0 ≤ p → p ≤ 100 →
        calculatePercentile S p
            = S.get? (Int.toNat (min ((S.length : Int) - 1)
                (max 0 (⌈p / 100 * (S.length : Rat)⌉ - 1))))
          ∧ (calculatePercentile S p).isSome = true)
    ∧ (∀ (v p : Rat), 0 ≤ p → p ≤ 100 → calculatePercentile [v] p = some v)
    ∧ (∀ S : List Rat, S ≠ [] → calculatePercentile S 100 = S.get? (S.length - 1)) := by
  have hceil : ∀ (S : List Rat) (p : Rat), p ≤ 100 →
      ⌈p / 100 * (S.length : Rat)⌉ ≤ (S.length : Int) := by
    intro S p hp
    apply Int.ceil_le.mpr
    push_cast
    have h1 : p / 100 ≤ 1 := (div_le_one (by norm_num)).mpr hp
    have h2 : (0 : Rat) ≤ (S.length : Rat) := by positivity
    calc p / 100 * (S.length : Rat) ≤ 1 * (S.length : Rat) :=
          mul_le_mul_of_nonneg_right h1 h2
      _ = (S.length : Rat) := one_mul _
  have hgen : ∀ (S : List Rat) (p : Rat), S ≠ [] → 0 ≤ p → p ≤ 100 →
      calculatePercentile S p
          = S.get? (Int.toNat (min ((S.length : Int) - 1)
              (max 0 (⌈p / 100 * (S.length : Rat)⌉ - 1))))
        ∧ (calculatePercentile S p).isSome = true := by
    intro S p hS hp0 hp1
    have hn : S.length ≠ 0 := fun h => hS (List.length_eq_zero.mp h)
    have h1 := hceil S p hp1
    have hmin : min ((S.length : Int) - 1) (max 0 (⌈p / 100 * (S.length : Rat)⌉ - 1))
        = max 0 (⌈p / 100 * (S.length : Rat)⌉ - 1) := by omega
    constructor
    · simp only [calculatePercentile, if_neg hn, hmin]
    · simp only [calculatePercentile, if_neg hn]
      cases hg : S.get? (Int.toNat (max 0 (⌈p / 100 * (S.length : Rat)⌉ - 1))) with
      | none => exact absurd (List.get?_eq_none.mp hg) (by omega)
      | some x => rfl
  refine ⟨fun p => by simp [calculatePercentile], hgen, ?_, ?_⟩
  · intro v p hp0 hp1
    obtain ⟨he, -⟩ := hgen [v] p (by simp) hp0 hp1
    rw [he]
    have hz : Int.toNat (min ((([v] : List Rat).length : Int) - 1)
        (max 0 (⌈p / 100 * (([v] : List Rat).length : Rat)⌉ - 1))) = 0 := by
      simp only [List.length_singleton]
      omega
    rw [hz]
    rfl
  · intro S hS
    have hn : S.length ≠ 0 := fun h => hS (List.length_eq_zero.mp h)
    have h1 : ⌈(100 : Rat) / 100 * (S.length : Rat)⌉ = (S.length : Int) := by
      norm_num
    have h2 : Int.toNat (max 0 ((S.length : Int) - 1)) = S.length - 1 := by omega
    simp only [calculatePercentile, if_neg hn, h1, h2]

/-- Claim C4 counterexample: the claim promises the single value for a
singleton at any percentile, but at `p = 200` the JS index 1 runs past a
one-element array and yields `undefined` (embedded `none`), not 42. -/
theorem c4_counterexample :
    calculatePercentile [(42 : Rat)] 200 = none
    ∧ calculatePercentile [(42 : Rat)] 200 ≠ some 42 := by
  have hc : ⌈(200 : Rat) / 100 * (([(42 : Rat)] : List Rat).length : Rat)⌉ = 2 := by
    rw [Int.ceil_eq_iff]
    constructor <;> norm_num
  have h : calculatePercentile [(42 : Rat)] 200 = none := by
    simp only [calculatePercentile, hc]
    norm_num
  exact ⟨h, by simp [h]⟩

/-- Claim C4 witness: the theorem applied at a concrete sorted sample. -/
theorem c4_witness :
    calculatePercentile [(1 : Rat), 2, 3, 4, 5, 6, 7, 8, 9, 10] 100
      = List.get? [(1 : Rat), 2, 3, 4, 5, 6, 7, 8, 9, 10]
          (List.length [(1 : Rat), 2, 3, 4, 5, 6, 7, 8, 9, 10] - 1) :=
  c4_percentile_nearest_rank.2.2.2 _ (by decide)

/-- Claim C10 (confirmed): a structural match of the query pattern yields a
record only when the captured progress marker is `fin`; whenever the marker
capture is `exe` (whatever the sql and time captures), `parseQueryEntry`
returns no record. -/
theorem c10_exe_yields_no_record :
    ∀ (line file ts sql tm : String),
      queryCaps line = some (ts, "exe", sql, tm) → parseQueryEntry line file = none := by
  intro line file ts sql tm h
  unfold parseQueryEntry
  rw [h]
  simp

/-- Claim C10 witness: a concrete `exe` line structurally matches the query
pattern yet produces no record. -/
theorem c10_witness :
    queryCaps lineExe = some ("2025-01-01T00:00:00.0Z", "exe", "SELECT 1", "5")
    ∧ parseQueryEntry lineExe "f.log" = none :=
  ⟨by decide,
   c10_exe_yields_no_record lineExe "f.log" "2025-01-01T00:00:00.0Z" "SELECT 1" "5" (by decide)⟩

/-! Lemmas about the progress-callback cadence. -/

theorem parseLoop_calls (file : String) (total : Nat) :
    ∀ (lines : List String) (i : Nat) (res : ParseResult) (calls : List (Nat × Nat)),
      (parseLoop file total i lines res calls).2
        = calls ++ ((List.range' i lines.length).filter (fun j => j % 1000 == 0)).map
            (fun j => (j, total))
  | [], i, res, calls => by simp [parseLoop]
  | line :: rest, i, res, calls => by
    by_cases h : i % 1000 = 0
    · have ih := parseLoop_calls file total rest (i + 1) (processLine file res line)
        (calls ++ [(i, total)])
      simp only [parseLoop, if_pos h]
      rw [ih, List.length_cons, List.range'_succ]
      simp [h, List.filter_cons]
    · have ih := parseLoop_calls file total rest (i + 1) (processLine file res line) calls
      simp only [parseLoop, if_neg h]
      rw [ih, List.length_cons, List.range'_succ]
      simp [h, List.filter_cons]

theorem countMultiplesOf1000 :
    ∀ n : Nat, (((List.range n).filter (fun j => j % 1000 == 0)).length) = (n + 999) / 1000 := by
  intro n
  induction n with
  | zero => rfl
  | succ n ih =>
    rw [List.range_succ, List.filter_append, List.length_append, ih]
    by_cases h : n % 1000 = 0 <;> simp [h] <;> omega

/-- Claim C9 (confirmed): the parser's reified progress invocations are
exactly the line indices divisible by 1000 (line 0 included), each paired
with the file's total line count, so a file with `totalLines` lines yields
exactly `ceil(totalLines / 1000)` invocations. -/
theorem c9_progress_cadence :
    ∀ (content file : String),
      (parseQuestDBLog content file).2
        = ((List.range (jsSplitOn '\n' content).length).filter (fun j => j % 1000 == 0)).map
            (fun j => (j, (jsSplitOn '\n' content).length))
      ∧ ((parseQuestDBLog content file).2).length
        = ((jsSplitOn '\n' content).length + 999) / 1000 := by
  intro content file
  have h1 : (parseQuestDBLog content file).2
      = ((List.range (jsSplitOn '\n' content).length).filter (fun j => j % 1000 == 0)).map
          (fun j => (j, (jsSplitOn '\n' content).length)) := by
    unfold parseQuestDBLog
    rw [parseLoop_calls]
    rw [List.range_eq_range']
    simp
  refine ⟨h1, ?_⟩
  rw [h1, List.length_map, countMultiplesOf1000]

/-! Lemmas about the multi-file batch fold. -/

theorem mergeResults_empty (r : ParseResult) : mergeResults r emptyResult = r := by
  cases r
  simp [mergeResults, emptyResult]

theorem processFold_results :
    ∀ (fs : List (String × Except String String)) (st : BatchState),
      (fs.foldl processOneFile st).results
        = fs.foldl (fun r f => mergeResults r (fileContribution f)) st.results
  | [], _ => rfl
  | f :: fs, st => by
    have ih := processFold_results fs (processOneFile st f)
    rw [List.foldl_cons, List.foldl_cons, ih]
    congr 1
    rcases f with ⟨name, c⟩
    cases c <;> simp [processOneFile, fileContribution, mergeResults_empty]

theorem processFold_errors :
    ∀ (fs : List (String × Except String String)) (st : BatchState),
      (fs.foldl processOneFile st).errors = st.errors ++ (fs.map errContribution).flatten
  | [], _ => by simp
  | f :: fs, st => by
    have ih := processFold_errors fs (processOneFile st f)
    rw [List.foldl_cons, ih, List.map_cons, List.flatten]
    rcases f with ⟨name, c⟩
    cases c <;> simp [processOneFile, errContribution]

/-- Claim C5 (confirmed): a file whose decoding raises an error contributes
nothing to the merged batch output — the batch over the remaining files is
unchanged, with files after the failure still ingested and merged — while
the recorded error message is exactly `Failed to process <file>: <message>`. -/
theorem c5_failed_file_isolated :
    ∀ (pre post : List (String × Except String String)) (n m : String),
      (processFiles (pre ++ (n, Except.error m) :: post)).results
          = (processFiles (pre ++ post)).results
      ∧ createErrorMessage n m ∈ (processFiles (pre ++ (n, Except.error m) :: post)).errors
      ∧ createErrorMessage n m = "Failed to process " ++ n ++ ": " ++ m := by
  intro pre post n m
  refine ⟨?_, ?_, rfl⟩
  · unfold processFiles
    rw [processFold_results, processFold_results, List.foldl_append, List.foldl_append,
      List.foldl_cons]
    congr 1
    show mergeResults _ (fileContribution (n, Except.error m)) = _
    simp [fileContribution, mergeResults_empty]
  · unfold processFiles
    rw [processFold_errors]
    apply List.mem_append_right
    apply List.mem_flatten.mpr
    refine ⟨[createErrorMessage n m], ?_, List.mem_singleton.mpr rfl⟩
    apply List.mem_map.mpr
    exact ⟨(n, Except.error m), by simp, rfl⟩

/-- Claim C3 (corrected): each line appends at most one record, to at most
one of the six collections, and the extractors are tried in the fixed
priority order query, walApply, walCommit, partitionClose, pgwireConnection,
systemEvent — but the winner is the first extractor that yields a record,
not the first whose pattern structurally matches: a structural query match
whose marker is not `fin` yields nothing and the later extractors are still
tried (see the counterexample). -/
theorem c3_first_yielding_extractor_wins :
    ∀ (file : String) (res : ParseResult) (line : String),
      processLine file res line = appendRecord res (firstRecordOf file line)
      ∧ totalRecords (processLine file res line) ≤ totalRecords res + 1 := by
  intro file res line
  have heq : processLine file res line = appendRecord res (firstRecordOf file line) := by
    unfold processLine firstRecordOf
    cases parseQueryEntry line file with
    | some q => rfl
    | none =>
      cases parseWalJobEntry line file with
      | some w => rfl
      | none =>
        cases parseWalCommitEntry line file with
        | some w => rfl
        | none =>
          cases parsePartitionClosingEntry line file with
          | some p => rfl
          | none =>
            cases parsePgwireEntry line file with
            | some p => rfl
            | none =>
              cases parseSystemEvent line file with
              | some e => rfl
              | none => rfl
  refine ⟨heq, ?_⟩
  rw [heq]
  cases firstRecordOf file line with
  | none => simp [appendRecord]
  | some r => cases r <;> simp [appendRecord, totalRecords] <;> omega

/-- Claim C3 counterexample: on a line that structurally matches the query
pattern (with marker `exe`) and also contains an o3-split phrase, the first
structural match does not win — a later pattern is tried and the line is
recorded as a system event. -/
theorem c3_counterexample :
    (rsearch queryRe lineExeO3).isSome = true
    ∧ (processLine "f.log" emptyResult lineExeO3).queries = []
    ∧ ((processLine "f.log" emptyResult lineExeO3).systemEvents.map (fun e => e.errorType))
        = ["O3 Partition Split"] := by
  refine ⟨by decide, by decide, by decide⟩


/-- Reduction lemma for `parseQueryEntry` once the structural match is
known: the record is produced exactly when the marker capture is `fin`. -/
theorem parseQueryEntry_eq (line file ts marker sql tm : String)
    (h : queryCaps line = some (ts, marker, sql, tm)) :
    parseQueryEntry line file
      = if marker = "fin" then
          some { timestamp := dateToMs ts
                 executionTimeMs := (digitsVal tm.data : Rat) / 1000000
                 sqlPreview := sqlPreviewOf sql
                 fullSql := sql
                 file := file }
        else none := by
  unfold parseQueryEntry
  rw [h]
  by_cases hm : marker = "fin"
  · subst hm
    rfl
  · simp [hm]

/-- Reduction lemma for `parseQueryEntry` when the pattern does not match. -/
theorem parseQueryEntry_none (line file : String) (h : queryCaps line = none) :
    parseQueryEntry line file = none := by
  unfold parseQueryEntry
  rw [h]

set_option maxRecDepth 1000000 in
/-- Claim C7 (corrected): query extraction divides the captured nanosecond
time by 1,000,000 and previews the SQL as the first 5 tokens of
`sql.split(' ')` — a split on the single space character, so consecutive
spaces yield empty tokens, which is not the whitespace-tokenization the
claim states (see the counterexample) — joined by single spaces with `...`
appended exactly when the split has more than 5 tokens; on the spec's
sample line this yields 285.89 ms, the expected preview and the full SQL. -/
theorem c7_query_time_and_preview :
    (∀ (line file : String) (q : QueryRecord), parseQueryEntry line file = some q →
       ∃ ts sql tm, queryCaps line = some (ts, "fin", sql, tm)
         ∧ q.executionTimeMs = (digitsVal tm.data : Rat) / 1000000
         ∧ q.fullSql = sql
         ∧ q.sqlPreview = String.intercalate " " ((jsSplitOn ' ' sql).take 5)
             ++ (if (jsSplitOn ' ' sql).length > 5 then "..." else ""))
    ∧ (parseQueryEntry sampleLine "f.log").map (fun q => q.executionTimeMs) = some (28589 / 100)
    ∧ (parseQueryEntry sampleLine "f.log").map (fun q => q.sqlPreview)
        = some "SELECT * FROM trades WHERE..."
    ∧ (parseQueryEntry sampleLine "f.log").map (fun q => q.fullSql)
        = some "SELECT * FROM trades WHERE symbol = \x27BTC\x27" := by
  have hq : queryCaps sampleLine
      = some ("2025-09-03T13:24:11.877189Z", "fin",
              "SELECT * FROM trades WHERE symbol = \x27BTC\x27", "285890000") := by
    decide
  have hrec := parseQueryEntry_eq sampleLine "f.log" _ _ _ _ hq
  rw [if_pos rfl] at hrec
  have hdv : digitsVal ("285890000" : String).data = 285890000 := by decide
  refine ⟨?_, ?_, ?_, ?_⟩
  · intro line file q h
    rcases hqc : queryCaps line with - | ⟨ts, marker, sql, tm⟩
    · rw [parseQueryEntry_none line file hqc] at h
      exact absurd h (by simp)
    · rw [parseQueryEntry_eq line file _ _ _ _ hqc] at h
      by_cases hm : marker = "fin"
      · subst hm
        rw [if_pos rfl] at h
        obtain rfl : _ = q := Option.some_inj.mp h
        exact ⟨ts, sql, tm, by simp [hqc], rfl, rfl, rfl⟩
      · rw [if_neg hm] at h
        exact absurd h (by simp)
  · rw [hrec, Option.map_some', hdv]
    norm_num
  · rw [hrec, Option.map_some']
    refine congrArg some ?_
    decide
  · rw [hrec, Option.map_some']

/-- Claim C7 counterexample: on a statement containing a doubled space the
code's preview (split on single spaces, empty tokens kept) differs from the
claim's whitespace-delimited-token preview. -/
theorem c7_counterexample :
    (parseQueryEntry previewLine "f.log").map (fun q => q.sqlPreview) = some "a  b c d..."
    ∧ specSqlPreview "a  b c d e f" = "a b c d e..."
    ∧ ("a  b c d..." : String) ≠ "a b c d e..." := by
  have hq : queryCaps previewLine
      = some ("2025-01-01T00:00:00.0Z", "fin", "a  b c d e f", "2000000") := by
    decide
  have hrec := parseQueryEntry_eq previewLine "f.log" _ _ _ _ hq
  rw [if_pos rfl] at hrec
  refine ⟨?_, by decide, by decide⟩
  rw [hrec, Option.map_some']
  refine congrArg some ?_
  decide

set_option maxRecDepth 1000000 in
/-- Claim C7 witness: the general conjunct applied at the sample line. -/
theorem c7_witness :
    ∃ ts sql tm,
      queryCaps sampleLine = some (ts, "fin", sql, tm)
        ∧ ((parseQueryEntry sampleLine "f.log").getD
              ⟨0, 0, "", "", ""⟩).executionTimeMs = (digitsVal tm.data : Rat) / 1000000
        ∧ ((parseQueryEntry sampleLine "f.log").getD ⟨0, 0, "", "", ""⟩).fullSql = sql
        ∧ ((parseQueryEntry sampleLine "f.log").getD ⟨0, 0, "", "", ""⟩).sqlPreview
            = String.intercalate " " ((jsSplitOn ' ' sql).take 5)
              ++ (if (jsSplitOn ' ' sql).length > 5 then "..." else "") :=
  c7_query_time_and_preview.1 sampleLine "f.log" _
    (by
      rw [parseQueryEntry_eq sampleLine "f.log" "2025-09-03T13:24:11.877189Z" "fin"
          "SELECT * FROM trades WHERE symbol = \x27BTC\x27" "285890000" (by decide),
        if_pos rfl]
      rfl)

/-- Specification of the per-file metadata entry in terms of the timestamp
union `FileHandler` actually builds (queries, walJobs and systemEvents
only): an entry exists iff that union is nonempty, and then it carries the
file name, the union's size as `recordCount`, and its minimum and maximum
as `startTime` and `endTime`. -/
theorem fileMetaOf_spec (name : String) (r : ParseResult) :
    (fileMetaOf name r = none ↔ fileTimestamps r = [])
    ∧ ∀ md, fileMetaOf name r = some md →
        md.fileName = name
        ∧ md.recordCount = (fileTimestamps r).length
        ∧ md.startTime ∈ fileTimestamps r
        ∧ md.endTime ∈ fileTimestamps r
        ∧ ∀ t ∈ fileTimestamps r, md.startTime ≤ t ∧ t ≤ md.endTime := by
  rcases hts : fileTimestamps r with - | ⟨t, ts⟩
  · constructor
    · simp [fileMetaOf, hts, calculateTimeMetrics]
    · intro md h
      unfold fileMetaOf at h
      rw [hts] at h
      simp [calculateTimeMetrics] at h
  · constructor
    · simp [fileMetaOf, hts, calculateTimeMetrics]
    · intro md h
      unfold fileMetaOf at h
      rw [hts] at h
      simp only [calculateTimeMetrics] at h
      obtain rfl : _ = md := Option.some_inj.mp h
      refine ⟨rfl, rfl, ?_, ?_, ?_⟩
      · exact foldl_min_mem ts t
      · exact foldl_max_mem ts t
      · intro u hu
        rcases List.mem_cons.mp hu with h1 | h2
        · subst h1
          exact ⟨foldl_min_le_init ts u, foldl_max_ge_init ts u⟩
        · exact ⟨foldl_min_le_mem ts t u h2, foldl_max_ge_mem ts t u h2⟩

/-- Claim C1 (corrected): the per-file metadata entry of an ingested file is
computed from the timestamps of only three of the six record categories —
queries, WAL applies and system events; WAL commits, partition closings and
pgwire connections are ignored.  Over that three-category union the entry
does carry the minimum as `startTime`, the maximum as `endTime` and the
union's size as `recordCount`, and no entry is emitted exactly when that
union is empty (even if the other three categories produced records, see
the counterexample). -/
theorem c1_file_metadata_three_categories :
    ∀ (name content : String),
      (fileMetaOf name (parseQuestDBLog content name).1 = none
          ↔ fileTimestamps (parseQuestDBLog content name).1 = [])
      ∧ ∀ md, fileMetaOf name (parseQuestDBLog content name).1 = some md →
          md.fileName = name
          ∧ md.recordCount = (fileTimestamps (parseQuestDBLog content name).1).length
          ∧ md.startTime ∈ fileTimestamps (parseQuestDBLog content name).1
          ∧ md.endTime ∈ fileTimestamps (parseQuestDBLog content name).1
          ∧ ∀ t ∈ fileTimestamps (parseQuestDBLog content name).1,
              md.startTime ≤ t ∧ t ≤ md.endTime :=
  fun name content => fileMetaOf_spec name (parseQuestDBLog content name).1

set_option maxRecDepth 1000000 in
/-- Claim C1 counterexample: a file holding one pgwire-connection line
yields one timestamped record, yet no metadata entry is emitted for it,
because the metadata union reads only queries, walJobs and systemEvents. -/
theorem c1_counterexample :
    (processFiles [("f.log", Except.ok pgLine)]).results.pgwireConnections.length = 1
    ∧ (processFiles [("f.log", Except.ok pgLine)]).metadata = [] := by
  refine ⟨by decide, by decide⟩

set_option maxRecDepth 1000000 in
/-- Claim C1 witness: the theorem applied at a query-bearing file and at the
pgwire-only file. -/
theorem c1_witness :
    ((fileMetaOf "f.log" (parseQuestDBLog sampleLine "f.log").1).getD
        ⟨"", 0, 0, 0⟩).recordCount
      = (fileTimestamps (parseQuestDBLog sampleLine "f.log").1).length
    ∧ fileMetaOf "x.log" (parseQuestDBLog pgLine "x.log").1 = none :=
  ⟨((c1_file_metadata_three_categories "f.log" sampleLine).2 _ (by decide)).2.1,
   (c1_file_metadata_three_categories "x.log" pgLine).1.mpr (by decide)⟩

/-- Claim C8 (confirmed): `groupByInterval` buckets each record under the
key `floor(timestamp / intervalMs) * intervalMs`, returns buckets sorted
ascending by bucket start, computes each bucket's `avgTime` as the mean and
`maxTime` as the maximum of its members' `executionTimeMs`, and on three
records at 100ms, 500ms and 1100ms with a 1000ms interval produces exactly
2 buckets, the first holding 2 items with `avgTime` equal to their mean. -/
theorem c8_group_by_interval :
    (∀ (data : List QueryItem) (intervalMs : Int),
        List.Sorted (fun a b : TimeBucket => a.timestamp ≤ b.timestamp)
          (groupByInterval data intervalMs))
    ∧ (∀ (data : List QueryItem) (intervalMs : Int),
        ∀ b ∈ groupByInterval data intervalMs,
          b.items = data.filter (fun it => intervalKey intervalMs it = b.timestamp)
          ∧ b.items ≠ []
          ∧ b.count = b.items.length
          ∧ b.avgTime
              = (b.items.map (fun it => it.executionTimeMs)).sum / (b.items.length : Rat)
          ∧ b.maxTime ∈ b.items.map (fun it => it.executionTimeMs)
          ∧ ∀ x ∈ b.items.map (fun it => it.executionTimeMs), x ≤ b.maxTime)
    ∧ (∀ (data : List QueryItem) (intervalMs : Int),
        ∀ it ∈ data, ∃ b ∈ groupByInterval data intervalMs, it ∈ b.items)
    ∧ (groupByInterval [⟨100, 10⟩, ⟨500, 20⟩, ⟨1100, 30⟩] 1000).length = 2
    ∧ ((groupByInterval [⟨100, 10⟩, ⟨500, 20⟩, ⟨1100, 30⟩] 1000).headD
          ⟨0, [], 0, 0, 0⟩).items.length = 2
    ∧ ((groupByInterval [⟨100, 10⟩, ⟨500, 20⟩, ⟨1100, 30⟩] 1000).headD
          ⟨0, [], 0, 0, 0⟩).avgTime = (10 + 20) / 2 := by
  have hperm : ∀ (data : List QueryItem) (intervalMs : Int),
      (groupByInterval data intervalMs).Perm
        (((data.map (intervalKey intervalMs)).dedup).map (mkBucket data intervalMs)) := by
    intro data intervalMs
    exact List.perm_insertionSort _ _
  have hbuckets : ∀ (data : List QueryItem) (intervalMs : Int),
      ∀ b ∈ groupByInterval data intervalMs,
        b.items = data.filter (fun it => intervalKey intervalMs it = b.timestamp)
        ∧ b.items ≠ []
        ∧ b.count = b.items.length
        ∧ b.avgTime
            = (b.items.map (fun it => it.executionTimeMs)).sum / (b.items.length : Rat)
        ∧ b.maxTime ∈ b.items.map (fun it => it.executionTimeMs)
        ∧ ∀ x ∈ b.items.map (fun it => it.executionTimeMs), x ≤ b.maxTime := by
    intro data intervalMs b hb
    have hb2 := ((hperm data intervalMs).mem_iff).mp hb
    obtain ⟨k, hk, rfl⟩ := List.mem_map.mp hb2
    have hkm : k ∈ data.map (intervalKey intervalMs) := List.mem_dedup.mp hk
    obtain ⟨it0, hit0, hkey0⟩ := List.mem_map.mp hkm
    have hmem0 : it0 ∈ (mkBucket data intervalMs k).items := by
      apply List.mem_filter.mpr
      exact ⟨hit0, by simp [hkey0]⟩
    have hne : (mkBucket data intervalMs k).items ≠ [] := List.ne_nil_of_mem hmem0
    refine ⟨rfl, hne, rfl, rfl, ?_, ?_⟩
    · rcases htimes : (mkBucket data intervalMs k).items.map (fun it => it.executionTimeMs)
          with - | ⟨x, xs⟩
      · exact absurd (List.map_eq_nil_iff.mp htimes) hne
      · show ((mkBucket data intervalMs k).items.map
            (fun it => it.executionTimeMs)).foldl max
              (((mkBucket data intervalMs k).items.map
                (fun it => it.executionTimeMs)).headD 0) ∈ _
        rw [htimes]
        simp only [List.headD_cons, List.foldl_cons, max_self]
        exact foldl_max_mem xs x
    · intro x hx
      rcases htimes : (mkBucket data intervalMs k).items.map (fun it => it.executionTimeMs)
          with - | ⟨y, ys⟩
      · rw [htimes] at hx
        exact absurd hx (List.not_mem_nil x)
      · show x ≤ ((mkBucket data intervalMs k).items.map
            (fun it => it.executionTimeMs)).foldl max
              (((mkBucket data intervalMs k).items.map
                (fun it => it.executionTimeMs)).headD 0)
        rw [htimes] at hx ⊢
        simp only [List.headD_cons, List.foldl_cons, max_self]
        rcases List.mem_cons.mp hx with h1 | h2
        · subst h1
          exact foldl_max_ge_init ys x
        · exact foldl_max_ge_mem ys y x h2
  refine ⟨?_, hbuckets, ?_, by decide, by decide, ?_⟩
  · intro data intervalMs
    simp only [groupByInterval]
    exact List.sorted_insertionSort _ _
  · intro data intervalMs it hit
    refine ⟨mkBucket data intervalMs (intervalKey intervalMs it), ?_, ?_⟩
    · apply ((hperm data intervalMs).mem_iff).mpr
      apply List.mem_map.mpr
      exact ⟨intervalKey intervalMs it,
        List.mem_dedup.mpr (List.mem_map.mpr ⟨it, hit, rfl⟩), rfl⟩
    · apply List.mem_filter.mpr
      exact ⟨hit, by simp⟩
  · rcases hgl : groupByInterval [⟨100, 10⟩, ⟨500, 20⟩, ⟨1100, 30⟩] 1000 with - | ⟨b0, bs⟩
    · exact absurd hgl (by decide)
    · have hb0 : b0 ∈ groupByInterval [⟨100, 10⟩, ⟨500, 20⟩, ⟨1100, 30⟩] 1000 := by
        rw [hgl]
        exact List.mem_cons_self _ _
      have hitems : b0.items = [⟨100, 10⟩, ⟨500, 20⟩] := by
        have := congrArg (fun l => (l.headD (⟨0, [], 0, 0, 0⟩ : TimeBucket)).items) hgl
        simp only [List.headD_cons] at this
        rw [← this]
        decide
      have havg := (hbuckets _ 1000 b0 hb0).2.2.2.1
      simp only [List.headD_cons]
      rw [havg, hitems]
      norm_num

/-- Claim C8 witness: the membership conjunct applied at the concrete data. -/
theorem c8_witness :
    ∃ b ∈ groupByInterval [⟨100, 10⟩, ⟨500, 20⟩, ⟨1100, 30⟩] 1000,
      (⟨100, 10⟩ : QueryItem) ∈ b.items :=
  c8_group_by_interval.2.2.1 [⟨100, 10⟩, ⟨500, 20⟩, ⟨1100, 30⟩] 1000 ⟨100, 10⟩ (by decide)

/-! Lemmas about the histogram fold. -/

theorem histStep_length (mn w : Rat) (bc : Nat) (bins : List HistBin) (v : Rat) :
    (histStep mn w bc bins v).length = bins.length := by
  simp [histStep, modifyIdx_length]

theorem foldl_histStep_length (mn w : Rat) (bc : Nat) :
    ∀ (l : List Rat) (bins : List HistBin),
      (l.foldl (histStep mn w bc) bins).length = bins.length
  | [], _ => rfl
  | v :: l, bins => by
    rw [List.foldl_cons, foldl_histStep_length mn w bc l _, histStep_length]

theorem sum_counts_modifyIdx (v : Rat) :
    ∀ (l : List HistBin) (n : Nat), n < l.length →
      ((modifyIdx (fun b => { b with count := b.count + 1, values := b.values ++ [v] }) n l).map
          (fun b => b.count)).sum
        = (l.map (fun b => b.count)).sum + 1
  | [], n, h => absurd h (by simp)
  | x :: xs, 0, _ => by
    simp [modifyIdx]
    omega
  | x :: xs, n + 1, h => by
    have ih := sum_counts_modifyIdx v xs n (by simpa using h)
    simp [modifyIdx, ih]
    omega

theorem sum_counts_fold (mn w : Rat) (bc : Nat) (hbc : 1 ≤ bc) :
    ∀ (l : List Rat) (bins : List HistBin), bins.length = bc →
      ((l.foldl (histStep mn w bc) bins).map (fun b => b.count)).sum
        = (bins.map (fun b => b.count)).sum + l.length
  | [], _, _ => by simp
  | v :: l, bins, h => by
    have hidx : binIndexOf mn w bc v < bins.length := by
      unfold binIndexOf
      omega
    have hlen : (histStep mn w bc bins v).length = bc := by rw [histStep_length, h]
    have ih := sum_counts_fold mn w bc hbc l (histStep mn w bc bins v) hlen
    rw [List.foldl_cons, ih]
    simp only [histStep]
    rw [sum_counts_modifyIdx v bins _ hidx]
    simp only [List.length_cons]
    omega

theorem getElem?_fold_hist (mn w : Rat) (bc : Nat) :
    ∀ (l : List Rat) (bins : List HistBin) (j : Nat),
      (l.foldl (histStep mn w bc) bins)[j]?
        = (bins[j]?).map (fun b =>
            { b with
              count := b.count + (l.filter (fun v => binIndexOf mn w bc v == j)).length
              values := b.values ++ l.filter (fun v => binIndexOf mn w bc v == j) })
  | [], bins, j => by
    cases hb : bins[j]? with
    | none => simp [hb]
    | some b => simp [hb]
  | v :: l, bins, j => by
    have ih := getElem?_fold_hist mn w bc l (histStep mn w bc bins v) j
    rw [List.foldl_cons, ih]
    simp only [histStep, modifyIdx_getElem?]
    by_cases hv : j = binIndexOf mn w bc v
    · have hvb : (binIndexOf mn w bc v == j) = true := by simp [hv]
      have hfc : (v :: l).filter (fun x => binIndexOf mn w bc x == j)
          = v :: l.filter (fun x => binIndexOf mn w bc x == j) := by
        simp [List.filter_cons, hvb]
      rw [hfc]
      simp only [if_pos hv]
      cases hb : bins[j]? with
      | none => simp
      | some b =>
        cases b
        simp only [Option.map_some', Option.map_map, Function.comp]
        refine congrArg some ?_
        simp only [HistBin.mk.injEq]
        refine ⟨trivial, trivial, ?_, ?_⟩
        · simp only [List.length_cons]
          omega
        · simp
    · have hvb : (binIndexOf mn w bc v == j) = false := by
        simp only [beq_eq_false_iff_ne, ne_eq]
        exact fun hc => hv hc.symm
      have hfc : (v :: l).filter (fun x => binIndexOf mn w bc x == j)
          = l.filter (fun x => binIndexOf mn w bc x == j) := by
        simp [List.filter_cons, hvb]
      rw [hfc]
      simp only [if_neg hv]

/-- Reduction lemma for `createHistogramBins` on nonempty data with a
nonzero bin width: the guarded fold over the initial equal-width bins. -/
theorem createHistogramBins_cons (d0 : Rat) (rest : List Rat) (bc : Nat)
    (hw : (rest.foldl max d0 - rest.foldl min d0) / (bc : Rat) ≠ 0) :
    createHistogramBins (d0 :: rest) bc
      = some ((d0 :: rest).foldl
          (histStep (rest.foldl min d0)
            ((rest.foldl max d0 - rest.foldl min d0) / (bc : Rat)) bc)
          ((List.range bc).map (fun (i : Nat) =>
            { start := rest.foldl min d0
                + (i : Rat) * ((rest.foldl max d0 - rest.foldl min d0) / (bc : Rat))
              stop := rest.foldl min d0
                + (i : Rat) * ((rest.foldl max d0 - rest.foldl min d0) / (bc : Rat))
                + (rest.foldl max d0 - rest.foldl min d0) / (bc : Rat)
              count := 0
              values := [] }))) := by
  simp only [createHistogramBins]
  rw [if_neg hw]

/-- Claim C6 (corrected): for nonempty data whose minimum is strictly below
its maximum and any `binCount ≥ 1`, histogram binning produces `binCount`
equal-width bins spanning `[min, max]` (first bin starts at the minimum,
last bin ends at the maximum), every input value is counted in exactly one
bin (the counts sum to the data size), and every value equal to the maximum
lands in the final bin; the empty input returns an empty bin list.  When all
values are equal the JS code throws instead of binning (see the
counterexample), so the claim needs `min < max`. -/
theorem c6_histogram_bins :
    (∀ binCount : Nat, createHistogramBins [] binCount = some [])
    ∧ (∀ (d0 : Rat) (rest : List Rat) (binCount : Nat), 1 ≤ binCount →
        rest.foldl min d0 < rest.foldl max d0 →
        ∃ bins, createHistogramBins (d0 :: rest) binCount = some bins
          ∧ bins.length = binCount
          ∧ (bins[0]?).map (fun b => b.start) = some (rest.foldl min d0)
          ∧ (bins[binCount - 1]?).map (fun b => b.stop) = some (rest.foldl max d0)
          ∧ (∀ b ∈ bins, b.stop - b.start
                = (rest.foldl max d0 - rest.foldl min d0) / (binCount : Rat))
          ∧ (bins.map (fun b => b.count)).sum = (d0 :: rest).length
          ∧ ∀ v ∈ d0 :: rest, v = rest.foldl max d0 →
              ∀ bl, bins[binCount - 1]? = some bl → v ∈ bl.values) := by
  constructor
  · intro binCount
    simp [createHistogramBins]
  intro d0 rest bc hbc hlt
  have hbcq : ((bc : Nat) : Rat) ≠ 0 := Nat.cast_ne_zero.mpr (by omega)
  have hsub : rest.foldl max d0 - rest.foldl min d0 ≠ 0 :=
    sub_ne_zero.mpr (ne_of_gt hlt)
  have hwpos : 0 < (rest.foldl max d0 - rest.foldl min d0) / (bc : Rat) := by
    apply div_pos (sub_pos.mpr hlt)
    exact_mod_cast Nat.pos_of_ne_zero (by omega)
  have hw : (rest.foldl max d0 - rest.foldl min d0) / (bc : Rat) ≠ 0 := ne_of_gt hwpos
  have hcreate := createHistogramBins_cons d0 rest bc hw
  refine ⟨_, hcreate, ?_, ?_, ?_, ?_, ?_, ?_⟩
  · rw [foldl_histStep_length]
    simp
  · rw [getElem?_fold_hist, List.getElem?_map, List.getElem?_range (by omega : 0 < bc)]
    simp only [Option.map_some']
    refine congrArg some ?_
    show rest.foldl min d0 + ((0 : Nat) : Rat) * _ = rest.foldl min d0
    push_cast
    ring
  · rw [getElem?_fold_hist, List.getElem?_map,
      List.getElem?_range (by omega : bc - 1 < bc)]
    simp only [Option.map_some']
    refine congrArg some ?_
    show rest.foldl min d0 + ((bc - 1 : Nat) : Rat) * _ + _ = rest.foldl max d0
    rw [Nat.cast_sub hbc]
    have hmul : (bc : Rat) * ((rest.foldl max d0 - rest.foldl min d0) / (bc : Rat))
        = rest.foldl max d0 - rest.foldl min d0 := mul_div_cancel₀ _ hbcq
    push_cast
    linear_combination hmul
  · intro b hb
    obtain ⟨j, hj⟩ := List.getElem?_of_mem hb
    rw [getElem?_fold_hist, List.getElem?_map] at hj
    cases hr : (List.range bc)[j]? with
    | none => rw [hr] at hj; exact absurd hj (by simp)
    | some i =>
      rw [hr] at hj
      simp only [Option.map_some'] at hj
      obtain rfl : _ = b := Option.some_inj.mp hj
      show (_ : Rat) - _ = _
      ring
  · rw [sum_counts_fold _ _ bc hbc _ _ (by simp)]
    have h0 : (((List.range bc).map (fun (i : Nat) =>
        ({ start := rest.foldl min d0
             + (i : Rat) * ((rest.foldl max d0 - rest.foldl min d0) / (bc : Rat))
           stop := rest.foldl min d0
             + (i : Rat) * ((rest.foldl max d0 - rest.foldl min d0) / (bc : Rat))
             + (rest.foldl max d0 - rest.foldl min d0) / (bc : Rat)
           count := 0
           values := [] } : HistBin))).map (fun b => b.count)).sum = 0 := by
      apply List.sum_eq_zero
      intro x hx
      obtain ⟨b, hbm, rfl⟩ := List.mem_map.mp hx
      obtain ⟨i, hi, rfl⟩ := List.mem_map.mp hbm
      rfl
    rw [h0]
    simp
  · intro v hv hveq bl hbl
    rw [getElem?_fold_hist, List.getElem?_map,
      List.getElem?_range (by omega : bc - 1 < bc)] at hbl
    simp only [Option.map_some'] at hbl
    obtain rfl : _ = bl := Option.some_inj.mp hbl
    have hdiveq : (v - rest.foldl min d0)
        / ((rest.foldl max d0 - rest.foldl min d0) / (bc : Rat)) = (bc : Rat) := by
      rw [hveq]
      field_simp
    have hkey : binIndexOf (rest.foldl min d0)
        ((rest.foldl max d0 - rest.foldl min d0) / (bc : Rat)) bc v = bc - 1 := by
      unfold binIndexOf
      rw [hdiveq, Int.floor_natCast, Int.toNat_natCast]
      omega
    show v ∈ [] ++ _
    rw [List.nil_append]
    apply List.mem_filter.mpr
    exact ⟨hv, by simp [hkey]⟩

/-- Claim C6 counterexample: the nonempty input `[5]` with `binCount = 1`
satisfies the claim's hypotheses, yet no bins are produced: the bin width is
zero, the JS bin index is `NaN`, and `bins[NaN].count++` throws
(embedded as `none`), so no value is counted in any bin. -/
theorem c6_counterexample :
    createHistogramBins [(5 : Rat)] 1 = none
    ∧ ([(5 : Rat)] : List Rat) ≠ []
    ∧ 1 ≤ 1 := by
  refine ⟨?_, by simp, le_refl 1⟩
  have h : ((5 : Rat) - 5) / ((1 : Nat) : Rat) = 0 := by norm_num
  simp only [createHistogramBins, List.foldl_nil]
  rw [if_pos h]

/-- Claim C6 witness: the theorem applied at two distinct values. -/
theorem c6_witness :
    ∃ bins, createHistogramBins ((1 : Rat) :: [2]) 2 = some bins
      ∧ bins.length = 2
      ∧ (bins[0]?).map (fun b => b.start) = some ([(2 : Rat)].foldl min 1)
      ∧ (bins[2 - 1]?).map (fun b => b.stop) = some ([(2 : Rat)].foldl max 1)
      ∧ (∀ b ∈ bins, b.stop - b.start
            = ([(2 : Rat)].foldl max 1 - [(2 : Rat)].foldl min 1) / ((2 : Nat) : Rat))
      ∧ (bins.map (fun b => b.count)).sum = ((1 : Rat) :: [2]).length
      ∧ ∀ v ∈ (1 : Rat) :: [2], v = [(2 : Rat)].foldl max 1 →
          ∀ bl, bins[2 - 1]? = some bl → v ∈ bl.values :=
  c6_histogram_bins.2 1 [2] 2 (by omega) (by norm_num [List.foldl_cons])
